import Mathlib

/-!
Verification of the fcheck file-system checker (src/fcheck.c) against its
specification.  The checker decodes an xv6-style file-system image and
verifies twelve consistency rules, printing one fixed diagnostic line and
exiting 1 at the first violation, and exiting 0 silently otherwise.

The embedding below mirrors fcheck.c: every check function returns
`Option Err` (`none` = the C function returns without printing, `some e` =
the C function prints the diagnostic for `e` and calls `exit(1)`), and
sequencing is "first error wins" (`firstErr`), which matches the C code's
immediate `exit(1)` on the first violation.
-/

namespace FCheck

/-- Modelled from the spec: the on-disk format constants come from the xv6
headers `types.h` / `fs.h`, which the repository includes but does not ship.
The spec fixes them as compile-time constants of the format ("N direct block
numbers - N is a compile-time constant", "entries per block is a format
constant", block size 512); these are the standard xv6 values.
`NDIRECT` - number of direct address slots in an inode. -/
def NDIRECT : Nat := 12

/-- Modelled from the spec: entries of an indirect block,
`BSIZE / sizeof(uint) = 512 / 4`. -/
def NINDIRECT : Nat := 128

/-- Modelled from the spec: inodes per block, `BSIZE / sizeof(struct dinode)`. -/
def IPB : Nat := 8

/-- Modelled from the spec: bitmap bits per block, `BSIZE * 8`. -/
def BPB : Nat := 4096

/-- Modelled from the spec: directory entries per block,
`BSIZE / sizeof(struct dirent)`. -/
def DPB : Nat := 32

/-- Inode type tag for directories (`T_DIR` in the xv6 headers). -/
def T_DIR : Int := 1

/-- Inode type tag for regular files (`T_FILE`). -/
def T_FILE : Int := 2

/-- Inode type tag for devices (`T_DEV`). -/
def T_DEV : Int := 3

/-- `struct dinode`: the fields fcheck reads.  `type` and `nlink` are C
`short`s (hence `Int`); `addrs i` is the `uint` array `addrs[NDIRECT+1]`,
meaningful for `i < NDIRECT + 1` (slot `NDIRECT` is the indirect slot). -/
structure Dinode where
  type : Int
  nlink : Int
  addrs : Nat → Nat

/-- `struct dirent`: an (inode number, name) pair.  `inum` is a C `ushort`. -/
structure Dirent where
  inum : Nat
  name : String
deriving DecidableEq

/-- The checker's read-only view of the mapped image together with the
superblock fields it reads.  `inodeAt i` is the `struct dinode` at index `i`
of the inode table; `blockWords b j` is the `j`-th `uint` of block `b`
(how indirect blocks are read); `blockDirents b j` is the `j`-th
`struct dirent` of block `b` (how directory blocks are read); `bitmapByte k`
is byte `k` of the bitmap region (`image->bitmapblocks[k]`). -/
structure Image where
  size : Nat
  nblocks : Nat
  ninodes : Nat
  inodeAt : Nat → Dinode
  blockWords : Nat → Nat → Nat
  blockDirents : Nat → Nat → Dirent
  bitmapByte : Nat → Nat

/-- `image.numinodeblocks = (image.sb->ninodes/(IPB))+1` (fcheck.c line 88). -/
def numinodeblocks (img : Image) : Nat := img.ninodes / IPB + 1

/-- `image.numbitmapblocks = (image.sb->size/(BPB))+1` (fcheck.c line 90). -/
def numbitmapblocks (img : Image) : Nat := img.size / BPB + 1

/-- `image.firstdatablock = image.numinodeblocks+image.numbitmapblocks+2`
(fcheck.c line 98). -/
def firstdatablock (img : Image) : Nat :=
  numinodeblocks img + numbitmapblocks img + 2

/-- `BITSET(bitmapblocks, blockaddr)`: bit `blockaddr % 8` of byte
`blockaddr / 8` of the bitmap region (fcheck.c lines 24-25). -/
def BITSET (img : Image) (blockaddr : Nat) : Bool :=
  Nat.testBit (img.bitmapByte (blockaddr / 8)) (blockaddr % 8)

/-- The twelve diagnostics fcheck can print, one per `printf`/`exit(1)` site
(usage and open errors are I/O glue outside the model). -/
inductive Err where
  | badInode
  | badDirectAddr
  | badIndirectAddr
  | rootDir
  | dirFormat
  | usedButFree
  | bitmapUnused
  | directDup
  | indirectDup
  | notInDir
  | refdButFree
  | badRefCount
  | dirDup
deriving DecidableEq, Repr

/-- First error of a sequence of checks: models fcheck's immediate
`exit(1)` at the first violation. -/
def firstErr : List (Option Err) → Option Err
  | [] => none
  | some e :: _ => some e
  | none :: rest => firstErr rest

/-- `check_inode_type` (rule 1, fcheck.c lines 118-123). -/
def check_inode_type (inode : Dinode) : Option Err :=
  if inode.type ≠ T_FILE ∧ inode.type ≠ T_DIR ∧ inode.type ≠ T_DEV then
    some .badInode
  else none

/-- `check_inode_direct_blocks` (rule 2, fcheck.c lines 128-140).  The C
`blockaddr < 0` test is dead code on a `uint` and is dropped. -/
def check_inode_direct_blocks (img : Image) (inode : Dinode) : Option Err :=
  firstErr ((List.range NDIRECT).map fun i =>
    let blockaddr := inode.addrs i
    if blockaddr = 0 then none
    else if blockaddr ≥ img.size then some .badDirectAddr
    else none)

/-- `check_inode_indirect_blocks` (rule 2, fcheck.c lines 145-171). -/
def check_inode_indirect_blocks (img : Image) (inode : Dinode) : Option Err :=
  let blockaddr := inode.addrs NDIRECT
  if blockaddr = 0 then none
  else if blockaddr ≥ img.size then some .badIndirectAddr
  else
    firstErr ((List.range NINDIRECT).map fun i =>
      let a := img.blockWords blockaddr i
      if a = 0 then none
      else if a ≥ img.size then some .badIndirectAddr
      else none)

/-- The directory entries `check_dir` scans: for each nonzero direct slot, the
`DPB` entries of that block, in order (fcheck.c lines 183-189). -/
def directDirents (img : Image) (inode : Dinode) : List Dirent :=
  (List.range NDIRECT).flatMap fun i =>
    let blockaddr := inode.addrs i
    if blockaddr = 0 then []
    else (List.range DPB).map fun j => img.blockDirents blockaddr j

/-- The entry loop of `check_dir` (fcheck.c lines 189-215): `cfound`/`pfound`
record whether a "." / ".." entry has been taken; only the first entry of
each name is examined, and the scan stops once both are found. -/
def check_dir_loop (inum : Nat) : List Dirent → Bool → Bool → Option Err
  | [], cfound, pfound =>
    if cfound ∧ pfound then none else some .dirFormat
  | de :: rest, cfound, pfound =>
    if cfound ∧ pfound then none
    else if ¬cfound ∧ de.name = "." then
      if de.inum ≠ inum then some .dirFormat
      else check_dir_loop inum rest true pfound
    else if ¬pfound ∧ de.name = ".." then
      if (inum ≠ 1 ∧ de.inum = inum) ∨ (inum = 1 ∧ de.inum ≠ inum) then
        some .rootDir
      else check_dir_loop inum rest cfound true
    else check_dir_loop inum rest cfound pfound

/-- `check_dir` (rules 3 and 4, fcheck.c lines 176-222). -/
def check_dir (img : Image) (inode : Dinode) (inum : Nat) : Option Err :=
  check_dir_loop inum (directDirents img inode) false false

/-- `check_bitmap_addr` (rule 5, fcheck.c lines 226-258). -/
def check_bitmap_addr (img : Image) (inode : Dinode) : Option Err :=
  firstErr ((List.range (NDIRECT + 1)).map fun i =>
    let blockaddr := inode.addrs i
    if blockaddr = 0 then none
    else if ¬BITSET img blockaddr then some .usedButFree
    else if i = NDIRECT then
      firstErr ((List.range NINDIRECT).map fun j =>
        let a := img.blockWords blockaddr j
        if a = 0 then none
        else if ¬BITSET img a then some .usedButFree
        else none)
    else none)

/-- The body of `inode_check`'s loop for inode `i` (fcheck.c lines 270-301):
skip free inodes, else rules 1, 2, 3/4 (the `i == 1` root branch and the
other-directory branch), then rule 5, first error first. -/
def inode_rules (img : Image) (i : Nat) : Option Err :=
  let inode := img.inodeAt i
  if inode.type = 0 then none
  else
    firstErr
      [ check_inode_type inode,
        check_inode_direct_blocks img inode,
        check_inode_indirect_blocks img inode,
        if i = 1 then
          firstErr
            [ if inode.type ≠ T_DIR then some .rootDir else none,
              check_dir img inode 1 ]
        else none,
        if i ≠ 1 ∧ inode.type = T_DIR then check_dir img inode i else none,
        check_bitmap_addr img inode ]

/-- `inode_check` (rule group 1-5, fcheck.c lines 263-302). -/
def inode_check (img : Image) : Option Err :=
  firstErr ((List.range img.ninodes).map (inode_rules img))

/-- The index expression `blockaddr - image->firstdatablock` used by
`get_used_dbs`, `fill_duaddrs` and `fill_iuaddrs` to index the runtime-sized
counter arrays; computed in `Int` because the C subtraction of `int`s can be
negative. -/
def uidx (img : Image) (blockaddr : Nat) : Int :=
  (blockaddr : Int) - (firstdatablock img : Int)

/-- `get_used_dbs` (fcheck.c lines 308-334) as the list of indices it marks in
`used_dbs`: every nonzero address slot contributes its index, and for a
nonzero indirect slot each nonzero word of the indirect block contributes
its index too. -/
def get_used_idxs (img : Image) (inode : Dinode) : List Int :=
  (List.range (NDIRECT + 1)).flatMap fun i =>
    let blockaddr := inode.addrs i
    if blockaddr = 0 then []
    else
      uidx img blockaddr ::
        (if i = NDIRECT then
          (List.range NINDIRECT).filterMap fun j =>
            let a := img.blockWords blockaddr j
            if a = 0 then none else some (uidx img a)
        else [])

/-- All indices marked in `used_dbs` over the in-use inodes
(fcheck.c lines 347-353). -/
def used_idxs (img : Image) : List Int :=
  (List.range img.ninodes).flatMap fun i =>
    let inode := img.inodeAt i
    if inode.type = 0 then [] else get_used_idxs img inode

/-- `bitmap_check` (rule 6, fcheck.c lines 339-363): scan `i` over
`0 ≤ i < nblocks`, i.e. block numbers `firstdatablock ≤ blockaddr`. -/
def bitmap_check (img : Image) : Option Err :=
  firstErr ((List.range img.nblocks).map fun i =>
    let blockaddr := i + firstdatablock img
    if ¬((i : Int) ∈ used_idxs img) ∧ BITSET img blockaddr then
      some .bitmapUnused
    else none)

/-- `fill_duaddrs` (fcheck.c lines 368-379) as the list of counter indices it
increments: one per nonzero direct slot. -/
def duaddr_idxs (img : Image) (inode : Dinode) : List Int :=
  (List.range NDIRECT).filterMap fun i =>
    let blockaddr := inode.addrs i
    if blockaddr = 0 then none else some (uidx img blockaddr)

/-- `fill_iuaddrs` (fcheck.c lines 383-396) as the list of counter indices it
increments.  Unlike every sibling loop, the source does not test
`inode->addrs[NDIRECT]` for 0 before dereferencing it, so for an inode whose
indirect slot is 0 the words of block 0 (the boot block) are read. -/
def iuaddr_idxs (img : Image) (inode : Dinode) : List Int :=
  let blockaddr := inode.addrs NDIRECT
  (List.range NINDIRECT).filterMap fun i =>
    let a := img.blockWords blockaddr i
    if a = 0 then none else some (uidx img a)

/-- All direct-use counter increments over the in-use inodes
(fcheck.c lines 415-423). -/
def duaddrs_all (img : Image) : List Int :=
  (List.range img.ninodes).flatMap fun i =>
    let inode := img.inodeAt i
    if inode.type = 0 then [] else duaddr_idxs img inode

/-- All indirect-use counter increments over the in-use inodes
(fcheck.c lines 415-423). -/
def iuaddrs_all (img : Image) : List Int :=
  (List.range img.ninodes).flatMap fun i =>
    let inode := img.inodeAt i
    if inode.type = 0 then [] else iuaddr_idxs img inode

/-- `blockaddrs_check` (rules 7 and 8, fcheck.c lines 402-439): at each index
the direct-use counter is tested before the indirect-use counter. -/
def blockaddrs_check (img : Image) : Option Err :=
  firstErr ((List.range img.nblocks).map fun (i : Nat) =>
    firstErr
      [ if (duaddrs_all img).count (i : Int) > 1 then some .directDup else none,
        if (iuaddrs_all img).count (i : Int) > 1 then some .indirectDup else none ])

/-- The directory entries `traverse_dirs` walks for one directory inode:
the entries of every nonzero direct block, then for a nonzero indirect slot
the entries of every nonzero word of the indirect block
(fcheck.c lines 452-491). -/
def travDirents (img : Image) (inode : Dinode) : List Dirent :=
  directDirents img inode ++
    (let blockaddr := inode.addrs NDIRECT
     if blockaddr = 0 then []
     else
       (List.range NINDIRECT).flatMap fun i =>
         let a := img.blockWords blockaddr i
         if a = 0 then []
         else (List.range DPB).map fun j => img.blockDirents a j)

/-- `inodemap[k]++`. -/
def bump (m : Nat → Nat) (k : Nat) : Nat → Nat :=
  fun i => if i = k then m i + 1 else m i

/-- `traverse_dirs` (fcheck.c lines 444-493), with explicit recursion fuel:
the C function recurses with no depth bound or cycle detection, so the
embedding spends one unit of fuel per recursive call and returns `none`
(no result: in C, potential nontermination) when the fuel runs out.
For each walked entry with nonzero inode number and name neither "." nor
"..", the target's map entry is incremented and the target is visited. -/
def traverse_dirs (img : Image) : Nat → Dinode → (Nat → Nat) → Option (Nat → Nat)
  | 0, _, _ => none
  | fuel + 1, rootinode, inodemap =>
    if rootinode.type = T_DIR then
      (travDirents img rootinode).foldlM
        (fun m de =>
          if de.inum ≠ 0 ∧ de.name ≠ "." ∧ de.name ≠ ".." then
            traverse_dirs img fuel (img.inodeAt de.inum) (bump m de.inum)
          else some m)
        inodemap
    else some inodemap

/-- The seed reference counts of `directory_check`: `inodemap[0]++` and
`inodemap[1]++` on a zeroed array (fcheck.c lines 505-512). -/
def seedMap : Nat → Nat :=
  fun i => if i = 0 ∨ i = 1 then 1 else 0

/-- The rule 9-12 scan of `directory_check` over inode indices
`2 ≤ i < ninodes` (fcheck.c lines 519-544). -/
def dirCheckRules (img : Image) (m : Nat → Nat) : Option Err :=
  firstErr ((List.range img.ninodes).map fun i =>
    if i < 2 then none
    else
      let inode := img.inodeAt i
      firstErr
        [ if inode.type ≠ 0 ∧ m i = 0 then some .notInDir else none,
          if m i > 0 ∧ inode.type = 0 then some .refdButFree else none,
          if inode.type = T_FILE ∧ inode.nlink ≠ (m i : Int) then some .badRefCount
          else none,
          if inode.type = T_DIR ∧ m i > 1 then some .dirDup else none ])

/-- `directory_check` (rules 9-12, fcheck.c lines 502-545): traverse from the
root inode (index 1), then scan.  Exhausted fuel models the nonterminating
run, which reports nothing. -/
def directory_check (img : Image) (fuel : Nat) : Option Err :=
  match traverse_dirs img fuel (img.inodeAt 1) seedMap with
  | none => none
  | some m => dirCheckRules img m

/-- `main`'s check sequence (fcheck.c lines 100-112): `fcheck img fuel = none`
iff the run prints nothing and exits 0 (given enough fuel for the walk). -/
def fcheck (img : Image) (fuel : Nat) : Option Err :=
  firstErr
    [ inode_check img,
      bitmap_check img,
      blockaddrs_check img,
      directory_check img fuel ]

/-! Spec-side data model: the twelve consistency rules of spec section 3,
stated over the same decoded image.  These definitions follow the spec's
words (they are the reference the checker is compared against), not the
checker's code. -/

/-- The nonzero direct addresses of an inode (spec: "a fixed-length ordered
sequence of direct block numbers", 0 = unused slot sentinel). -/
def directAddrsOf (inode : Dinode) : List Nat :=
  (List.range NDIRECT).filterMap fun s =>
    let a := inode.addrs s
    if a = 0 then none else some a

/-- The indirect-referenced addresses of an inode: the nonzero entries of the
indirect block, read only when the indirect slot is nonzero (spec: value 0
"must never itself be dereferenced"). -/
def indirectAddrsOf (img : Image) (inode : Dinode) : List Nat :=
  let ind := inode.addrs NDIRECT
  if ind = 0 then []
  else
    (List.range NINDIRECT).filterMap fun j =>
      let a := img.blockWords ind j
      if a = 0 then none else some a

/-- Every address used by an inode: the nonzero address slots (direct and the
indirect slot itself) and the indirect-referenced addresses. -/
def inodeAddrs (img : Image) (inode : Dinode) : List Nat :=
  ((List.range (NDIRECT + 1)).filterMap fun s =>
    let a := inode.addrs s
    if a = 0 then none else some a) ++
  indirectAddrsOf img inode

/-- Block `b` is reachable from some in-use inode's direct or indirect
addresses (spec rule 6's right-hand side). -/
def refdBlock (img : Image) (b : Nat) : Bool :=
  (List.range img.ninodes).any fun i =>
    !((img.inodeAt i).type == 0) && (inodeAddrs img (img.inodeAt i)).contains b

/-- Spec rule 1: every in-use inode's type is one of File, Directory, Device. -/
def rule1 (img : Image) : Bool :=
  (List.range img.ninodes).all fun i =>
    let t := (img.inodeAt i).type
    (t == 0) || (t == T_FILE) || (t == T_DIR) || (t == T_DEV)

/-- Spec rule 2: every nonzero direct or indirect-referenced address of an
in-use inode lies within `[0, total blocks)`. -/
def rule2 (img : Image) : Bool :=
  (List.range img.ninodes).all fun i =>
    let inode := img.inodeAt i
    (inode.type == 0) ||
      (inodeAddrs img inode).all fun a => decide (a < img.size)

/-- The entries named ".." among a directory inode's data-block entries. -/
def dotdotEntries (img : Image) (inode : Dinode) : List Dirent :=
  (travDirents img inode).filter fun de => de.name == ".."

/-- Spec rule 3: inode 1 is a directory whose ".." entry points to itself;
no other inode's ".." points to itself. -/
def rule3 (img : Image) : Bool :=
  ((img.inodeAt 1).type == T_DIR) &&
  !(dotdotEntries img (img.inodeAt 1)).isEmpty &&
  ((dotdotEntries img (img.inodeAt 1)).all fun de => de.inum == 1) &&
  ((List.range img.ninodes).all fun i =>
    (i == 1) || !((img.inodeAt i).type == T_DIR) ||
      ((dotdotEntries img (img.inodeAt i)).all fun de => !(de.inum == i)))

/-- Spec rule 4: every directory inode contains a "." entry pointing to itself
and a ".." entry. -/
def rule4 (img : Image) : Bool :=
  (List.range img.ninodes).all fun i =>
    let inode := img.inodeAt i
    !(inode.type == T_DIR) ||
      (((travDirents img inode).any fun de => (de.name == ".") && (de.inum == i)) &&
       ((travDirents img inode).any fun de => de.name == ".."))

/-- Spec rule 5: every address used by an in-use inode is marked allocated in
the bitmap. -/
def rule5 (img : Image) : Bool :=
  (List.range img.ninodes).all fun i =>
    let inode := img.inodeAt i
    (inode.type == 0) || (inodeAddrs img inode).all fun a => BITSET img a

/-- Spec rule 6: every block marked allocated in the bitmap is reachable from
some in-use inode's direct or indirect addresses. -/
def rule6 (img : Image) : Bool :=
  (List.range img.size).all fun b => !(BITSET img b) || refdBlock img b

/-- Two distinct in-use inodes both list some block as a direct address. -/
def sharedDirectAddr (img : Image) : Bool :=
  (List.range img.ninodes).any fun i =>
    (List.range img.ninodes).any fun j =>
      !(i == j) && !((img.inodeAt i).type == 0) && !((img.inodeAt j).type == 0) &&
        ((directAddrsOf (img.inodeAt i)).any fun a =>
          (directAddrsOf (img.inodeAt j)).contains a)

/-- Spec rule 7: no data block is used as a direct address by more than one
inode. -/
def rule7 (img : Image) : Bool :=
  !(sharedDirectAddr img)

/-- Spec rule 8: no data block is used as an indirect-referenced address by
more than one inode. -/
def rule8 (img : Image) : Bool :=
  !((List.range img.ninodes).any fun i =>
    (List.range img.ninodes).any fun j =>
      !(i == j) && !((img.inodeAt i).type == 0) && !((img.inodeAt j).type == 0) &&
        ((indirectAddrsOf img (img.inodeAt i)).any fun a =>
          (indirectAddrsOf img (img.inodeAt j)).contains a))

/-- The number of directory entries referencing inode number `k`, over all
in-use directory inodes' data blocks, entries named "." or ".." excluded
(spec section 4.5's reference count). -/
def specRefCount (img : Image) (k : Nat) : Nat :=
  ((List.range img.ninodes).map fun i =>
    let inode := img.inodeAt i
    if inode.type = T_DIR then
      (travDirents img inode).countP fun de =>
        (de.inum == k) && !(de.name == ".") && !(de.name == "..")
    else 0).sum

/-- Spec rule 9: every in-use inode other than the reserved inodes 0 and 1 is
referenced by at least one directory entry. -/
def rule9 (img : Image) : Bool :=
  (List.range img.ninodes).all fun i =>
    decide (i < 2) || ((img.inodeAt i).type == 0) || decide (0 < specRefCount img i)

/-- Spec rule 10: every inode number referenced by a directory entry
corresponds to an in-use inode (0 marks an empty entry). -/
def rule10 (img : Image) : Bool :=
  (List.range img.ninodes).all fun i =>
    !((img.inodeAt i).type == T_DIR) ||
      (travDirents img (img.inodeAt i)).all fun de =>
        (de.inum == 0) ||
          (decide (de.inum < img.ninodes) && !((img.inodeAt de.inum).type == 0))

/-- Spec rule 11: a regular file's link count equals the number of directory
entries referencing it. -/
def rule11 (img : Image) : Bool :=
  (List.range img.ninodes).all fun i =>
    decide (i < 2) || !((img.inodeAt i).type == T_FILE) ||
      ((img.inodeAt i).nlink == (specRefCount img i : Int))

/-- Spec rule 12: a directory inode is referenced by exactly one directory
entry elsewhere in the tree (the root and reserved inodes excluded, as in
spec section 4.5). -/
def rule12 (img : Image) : Bool :=
  (List.range img.ninodes).all fun i =>
    decide (i < 2) || !((img.inodeAt i).type == T_DIR) ||
      (specRefCount img i == 1)

/-- All twelve consistency rules of spec section 3. -/
def allRules (img : Image) : Bool :=
  rule1 img && rule2 img && rule3 img && rule4 img && rule5 img && rule6 img &&
  rule7 img && rule8 img && rule9 img && rule10 img && rule11 img && rule12 img

/-- The number of direct address slots, over all in-use inodes, holding block
number `b` (slots of one inode counted separately): the total number of
increments `fill_duaddrs` performs at `b`'s counter when `b` maps into the
counter range. -/
def directClaimCount (img : Image) (b : Nat) : Nat :=
  ((List.range img.ninodes).map fun i =>
    let inode := img.inodeAt i
    if inode.type = 0 then 0 else (directAddrsOf inode).count b).sum

/-- The inode numbers `traverse_dirs` recurses into from one directory inode:
walked entries with nonzero inode number and name neither "." nor "..". -/
def travInums (img : Image) (inode : Dinode) : List Nat :=
  (travDirents img inode).filterMap fun de =>
    if de.inum ≠ 0 ∧ de.name ≠ "." ∧ de.name ≠ ".." then some de.inum else none

/-- The directory reference graph walked by `traverse_dirs`, entries named
"." and ".." excluded: inode number `a` is a directory and one of its walked
entries names inode number `b`. -/
def dirEdge (img : Image) (a b : Nat) : Prop :=
  (img.inodeAt a).type = T_DIR ∧ b ∈ travInums img (img.inodeAt a)

/-! Concrete images.  All use the same superblock: `ninodes = 8` (2 inode
blocks), `size = 32` (1 bitmap block), so `firstdatablock = 5` and
`nblocks = 27 = 32 - 5`. -/

/-- A free inode slot (type tag 0, all addresses 0). -/
def freeInode : Dinode := ⟨0, 0, fun _ => 0⟩

/-- An empty directory entry slot. -/
def emptyDirent : Dirent := ⟨0, ""⟩

/-- Address array from a list, remaining slots 0. -/
def mkAddrs (l : List Nat) : Nat → Nat := fun i => l.getD i 0

/-- The root directory inode of `imgE` and `imgF`: one data block (block 5)
holding its "." and ".." entries, indirect slot 0. -/
def rootDinode : Dinode := ⟨T_DIR, 1, mkAddrs [5]⟩

/-- An image satisfying all twelve rules whose boot block (block 0) happens to
contain the word 6 twice - rules constrain nothing about block 0.  Inode 1 is
the root directory with one data block (block 5); the bitmap marks exactly
block 5. -/
def imgE : Image where
  size := 32
  nblocks := 27
  ninodes := 8
  inodeAt := fun i => if i = 1 then rootDinode else freeInode
  blockWords := fun b j => if b = 0 ∧ (j = 0 ∨ j = 1) then 6 else 0
  blockDirents := fun b j =>
    if b = 5 ∧ j = 0 then ⟨1, "."⟩
    else if b = 5 ∧ j = 1 then ⟨1, ".."⟩
    else emptyDirent
  bitmapByte := fun k => if k = 0 then 32 else 0

/-- Like `imgE` but with a zeroed boot block and the bitmap additionally
marking block 3 (inside the inode-table region, below `firstdatablock`),
which no inode references. -/
def imgF : Image where
  size := 32
  nblocks := 27
  ninodes := 8
  inodeAt := fun i => if i = 1 then rootDinode else freeInode
  blockWords := fun _ _ => 0
  blockDirents := fun b j =>
    if b = 5 ∧ j = 0 then ⟨1, "."⟩
    else if b = 5 ∧ j = 1 then ⟨1, ".."⟩
    else emptyDirent
  bitmapByte := fun k => if k = 0 then 40 else 0

/-- An image whose every inode slot is free (in particular inode 1), with an
all-zero bitmap. -/
def imgZ : Image where
  size := 32
  nblocks := 27
  ninodes := 8
  inodeAt := fun _ => freeInode
  blockWords := fun _ _ => 0
  blockDirents := fun _ _ => emptyDirent
  bitmapByte := fun _ => 0

/-- An image with a single in-use inode (index 1, a file) listing data block
6 in two of its own direct slots. -/
def imgH : Image where
  size := 32
  nblocks := 27
  ninodes := 8
  inodeAt := fun i => if i = 1 then ⟨T_FILE, 1, mkAddrs [6, 6]⟩ else freeInode
  blockWords := fun _ _ => 0
  blockDirents := fun _ _ => emptyDirent
  bitmapByte := fun _ => 0

/-- An image with a single in-use inode (index 1, a file) whose first direct
slot holds block number 3: nonzero and below `size`, so the rule-2 address
check accepts it, yet `3 < firstdatablock = 5`. -/
def imgG : Image where
  size := 32
  nblocks := 27
  ninodes := 8
  inodeAt := fun i => if i = 1 then ⟨T_FILE, 1, mkAddrs [3]⟩ else freeInode
  blockWords := fun _ _ => 0
  blockDirents := fun _ _ => emptyDirent
  bitmapByte := fun _ => 0

/-- An image where inode 2 is a directory whose single data block (block 7)
holds one entry: a ".." entry pointing to inode 2 itself, and no "." entry. -/
def imgW8 : Image where
  size := 32
  nblocks := 27
  ninodes := 8
  inodeAt := fun i => if i = 2 then ⟨T_DIR, 1, mkAddrs [7]⟩ else freeInode
  blockWords := fun _ _ => 0
  blockDirents := fun b j => if b = 7 ∧ j = 0 then ⟨2, ".."⟩ else emptyDirent
  bitmapByte := fun _ => 0

/-! Basic facts about `firstErr`. -/

theorem firstErr_eq_none_iff : ∀ (l : List (Option Err)),
    firstErr l = none ↔ ∀ x ∈ l, x = none
  | [] => by simp [firstErr]
  | none :: rest => by simp [firstErr, firstErr_eq_none_iff rest]
  | some e :: rest => by simp [firstErr]

theorem firstErr_eq_some_mem : ∀ {l : List (Option Err)} {e : Err},
    firstErr l = some e → some e ∈ l
  | [], e, h => by simp [firstErr] at h
  | none :: rest, e, h => by
      have := firstErr_eq_some_mem (l := rest) (by simpa [firstErr] using h)
      simp [this]
  | some f :: rest, e, h => by
      simp [firstErr] at h
      simp [h]

theorem firstErr_eq_some_of_mem : ∀ (l : List (Option Err)) (e : Err),
    (∀ x ∈ l, x = none ∨ x = some e) → some e ∈ l → firstErr l = some e
  | [], e, _, hm => by simp at hm
  | none :: rest, e, h, hm => by
      have hm' : some e ∈ rest := by simpa using hm
      simpa [firstErr] using
        firstErr_eq_some_of_mem rest e (fun x hx => h x (List.mem_cons_of_mem _ hx)) hm'
  | some f :: rest, e, h, hm => by
      rcases h _ (List.mem_cons_self _ _) with h1 | h1
      · exact absurd h1 (by simp)
      · simpa [firstErr] using h1

theorem firstErr_map_range_eq_none_iff (n : Nat) (f : Nat → Option Err) :
    firstErr ((List.range n).map f) = none ↔ ∀ i, i < n → f i = none := by
  rw [firstErr_eq_none_iff]
  simp

theorem firstErr_map_range_eq_some_iff (n : Nat) (f : Nat → Option Err) (e : Err)
    (h : ∀ i, i < n → f i = none ∨ f i = some e) :
    firstErr ((List.range n).map f) = some e ↔ ∃ i, i < n ∧ f i = some e := by
  constructor
  · intro hh
    have hm := firstErr_eq_some_mem hh
    simp only [List.mem_map, List.mem_range] at hm
    obtain ⟨i, hi, hf⟩ := hm
    exact ⟨i, hi, hf⟩
  · rintro ⟨i, hi, hf⟩
    refine firstErr_eq_some_of_mem _ _ ?_ ?_
    · intro x hx
      simp only [List.mem_map, List.mem_range] at hx
      obtain ⟨j, hj, hx⟩ := hx
      rcases h j hj with h1 | h1 <;> simp [← hx, h1]
    · simp only [List.mem_map, List.mem_range]
      exact ⟨i, hi, hf⟩

theorem eq_none_of_firstErr_eq_none {l : List (Option Err)} {x : Option Err}
    (h : firstErr l = none) (hx : x ∈ l) : x = none :=
  (firstErr_eq_none_iff l).mp h x hx

/-- C4: the Layout Decoder's block counts are floor quotients plus one, which
is the ceiling exactly when the divisor does not divide evenly, and one more
than the ceiling when it does; the first data block is 2 plus the two
counts. -/
theorem c4_layout_formulas (img : Image) :
    (¬ IPB ∣ img.ninodes →
      numinodeblocks img = (img.ninodes + IPB - 1) / IPB) ∧
    (IPB ∣ img.ninodes →
      numinodeblocks img = (img.ninodes + IPB - 1) / IPB + 1) ∧
    (¬ BPB ∣ img.size →
      numbitmapblocks img = (img.size + BPB - 1) / BPB) ∧
    (BPB ∣ img.size →
      numbitmapblocks img = (img.size + BPB - 1) / BPB + 1) ∧
    firstdatablock img = 2 + numinodeblocks img + numbitmapblocks img := by
  refine ⟨fun h => ?_, fun h => ?_, fun h => ?_, fun h => ?_, ?_⟩ <;>
    simp only [numinodeblocks, numbitmapblocks, firstdatablock, IPB, BPB] at * <;>
    omega

/-- C4 fails as stated: for `ninodes = 8` (exactly divisible by `IPB = 8`) the
code computes 2 inode-table blocks, not the ceiling `⌈8/8⌉ = 1`. -/
theorem c4_counterexample :
    IPB ∣ imgE.ninodes ∧
    numinodeblocks imgE = 2 ∧
    (imgE.ninodes + IPB - 1) / IPB = 1 ∧
    numinodeblocks imgE ≠ (imgE.ninodes + IPB - 1) / IPB := by decide

/-- C10: the counter index `blockaddr - firstdatablock` is in `[0, nblocks)`
exactly for addresses in `[firstdatablock, firstdatablock + nblocks)`; the
rule-2 check does not establish that: `imgG`'s in-use inode lists block 3,
which the rule-2 address checks accept (`3 < size`), yet `get_used_dbs` and
`fill_duaddrs` compute the negative index `3 - 5 = -2` for it. -/
theorem c10_counter_index_bounds :
    (∀ (img : Image) (a : Nat),
      firstdatablock img ≤ a → a < firstdatablock img + img.nblocks →
        0 ≤ uidx img a ∧ uidx img a < (img.nblocks : Int)) ∧
    check_inode_direct_blocks imgG (imgG.inodeAt 1) = none ∧
    check_inode_indirect_blocks imgG (imgG.inodeAt 1) = none ∧
    (imgG.inodeAt 1).type ≠ 0 ∧
    (imgG.inodeAt 1).addrs 0 = 3 ∧
    uidx imgG 3 ∈ get_used_idxs imgG (imgG.inodeAt 1) ∧
    uidx imgG 3 ∈ duaddr_idxs imgG (imgG.inodeAt 1) ∧
    uidx imgG 3 < 0 := by
  refine ⟨fun img a h1 h2 => ?_, by decide⟩
  unfold uidx
  omega

/-- C1 fails on the code: `imgE` satisfies all twelve consistency rules, yet
the checker prints "ERROR: indirect address used more than once." and exits 1,
because `fill_iuaddrs` reads the boot block as an indirect block for the
in-use inode whose indirect slot is 0. -/
theorem c1_conforming_image_rejected :
    allRules imgE = true ∧ fcheck imgE 2 = some Err.indirectDup := by decide

/-- C2 fails on the code: inode 1 of `imgE` is in use with indirect slot 0,
and `fill_iuaddrs` nevertheless reads the `NINDIRECT` words of block 0,
producing two counter increments from the boot block's contents - unlike
`get_used_dbs`, which skips the zero slot.  (`1 = uidx imgE 6` comes from the
word 6 stored twice in block 0.) -/
theorem c2_zero_indirect_slot_dereferenced :
    (imgE.inodeAt 1).addrs NDIRECT = 0 ∧
    imgE.blockWords 0 0 = 6 ∧ imgE.blockWords 0 1 = 6 ∧
    iuaddr_idxs imgE (imgE.inodeAt 1) = [1, 1] ∧
    get_used_idxs imgE (imgE.inodeAt 1) = [0] ∧
    blockaddrs_check imgE = some Err.indirectDup := by decide

/-- C3 fails as stated: in `imgF`, block 3 is marked allocated in the bitmap
and is reachable from no in-use inode, but its number is below
`firstdatablock`, and the checker reports nothing and exits 0 (the directory
walk completes). -/
theorem c3_counterexample :
    BITSET imgF 3 = true ∧
    refdBlock imgF 3 = false ∧
    3 < firstdatablock imgF ∧
    fcheck imgF 2 = none ∧
    (traverse_dirs imgF 2 (imgF.inodeAt 1) seedMap).isSome = true := by decide

/-- C5 fails as stated: in `imgZ`, inode 1 is a free slot - so not an in-use
directory inode - and the checker reports nothing and exits 0 (the walk
completes). -/
theorem c5_counterexample :
    (imgZ.inodeAt 1).type = 0 ∧
    (imgZ.inodeAt 1).type ≠ T_DIR ∧
    fcheck imgZ 2 = none ∧
    (traverse_dirs imgZ 2 (imgZ.inodeAt 1) seedMap).isSome = true := by decide

/-- C6 fails as stated: `imgH`'s single in-use inode lists block 6 in two of
its own direct slots; no data block is claimed by more than one inode, yet
`blockaddrs_check` reports the duplicate-direct-address violation. -/
theorem c6_counterexample :
    blockaddrs_check imgH = some Err.directDup ∧
    sharedDirectAddr imgH = false := by decide

/-- C8 fails in one corner: inode 2 of `imgW8` is a directory with no "."
entry at all, but its first ".." entry references inode 2 itself, so the scan
exits with the root-directory violation, not the malformed-directory one. -/
theorem c8_counterexample :
    ((directDirents imgW8 (imgW8.inodeAt 2)).all fun de => !(de.name == ".")) = true ∧
    check_dir imgW8 (imgW8.inodeAt 2) 2 = some Err.rootDir ∧
    inode_rules imgW8 2 = some Err.rootDir ∧
    some Err.rootDir ≠ some Err.dirFormat := by decide

/-! Characterization of the rule-2 address checks (C7). -/

theorem direct_check_eq_some_iff (img : Image) (inode : Dinode) :
    check_inode_direct_blocks img inode = some Err.badDirectAddr ↔
      ∃ i, i < NDIRECT ∧ inode.addrs i ≠ 0 ∧ img.size ≤ inode.addrs i := by
  unfold check_inode_direct_blocks
  rw [firstErr_map_range_eq_some_iff]
  · constructor
    · rintro ⟨i, hi, hf⟩
      refine ⟨i, hi, ?_⟩
      by_cases h1 : inode.addrs i = 0
      · simp [h1] at hf
      · by_cases h2 : img.size ≤ inode.addrs i
        · exact ⟨h1, h2⟩
        · simp [h1, h2] at hf
    · rintro ⟨i, hi, h1, h2⟩
      refine ⟨i, hi, ?_⟩
      simp [h1, h2]
  · intro i hi
    by_cases h1 : inode.addrs i = 0
    · simp [h1]
    · by_cases h2 : img.size ≤ inode.addrs i
      · simp [h1, h2]
      · simp [h1, h2]

theorem direct_check_eq_none_iff (img : Image) (inode : Dinode) :
    check_inode_direct_blocks img inode = none ↔
      ∀ i, i < NDIRECT → inode.addrs i ≠ 0 → inode.addrs i < img.size := by
  unfold check_inode_direct_blocks
  rw [firstErr_map_range_eq_none_iff]
  constructor
  · intro h i hi h1
    have := h i hi
    by_cases h2 : img.size ≤ inode.addrs i
    · simp [h1, h2] at this
    · omega
  · intro h i hi
    by_cases h1 : inode.addrs i = 0
    · simp [h1]
    · have h2 := h i hi h1
      simp [h1]
      omega

theorem indirect_check_eq_some_iff (img : Image) (inode : Dinode) :
    check_inode_indirect_blocks img inode = some Err.badIndirectAddr ↔
      inode.addrs NDIRECT ≠ 0 ∧
        (img.size ≤ inode.addrs NDIRECT ∨
          ∃ j, j < NINDIRECT ∧ img.blockWords (inode.addrs NDIRECT) j ≠ 0 ∧
            img.size ≤ img.blockWords (inode.addrs NDIRECT) j) := by
  unfold check_inode_indirect_blocks
  by_cases h0 : inode.addrs NDIRECT = 0
  · simp [h0]
  · rw [if_neg h0]
    by_cases hs : img.size ≤ inode.addrs NDIRECT
    · simp only [ge_iff_le, if_pos hs]
      simp [h0, hs]
    · rw [if_neg (by omega : ¬inode.addrs NDIRECT ≥ img.size)]
      rw [firstErr_map_range_eq_some_iff]
      · constructor
        · rintro ⟨j, hj, hf⟩
          refine ⟨h0, Or.inr ⟨j, hj, ?_⟩⟩
          by_cases hw : img.blockWords (inode.addrs NDIRECT) j = 0
          · simp [hw] at hf
          · by_cases hws : img.size ≤ img.blockWords (inode.addrs NDIRECT) j
            · exact ⟨hw, hws⟩
            · simp [hw, hws] at hf
        · rintro ⟨-, hbad | ⟨j, hj, hw, hws⟩⟩
          · omega
          · exact ⟨j, hj, by simp [hw, hws]⟩
      · intro j hj
        by_cases hw : img.blockWords (inode.addrs NDIRECT) j = 0
        · simp [hw]
        · by_cases hws : img.size ≤ img.blockWords (inode.addrs NDIRECT) j
          · simp [hw, hws]
          · simp [hw, hws]

/-- C7: each zero address is skipped; the direct check reports the
bad-direct-address violation exactly when some nonzero direct slot holds an
address at or above the total block count; the indirect check reports the
bad-indirect-address violation exactly when the indirect slot is nonzero and
either it, or some nonzero entry of the indirect block, is at or above the
total block count; and any such violation in an in-use inode forces
`inode_check` (hence the run) to exit nonzero. -/
theorem c7_rule2_address_checks (img : Image) (inode : Dinode) :
    (check_inode_direct_blocks img inode = some Err.badDirectAddr ↔
      ∃ i, i < NDIRECT ∧ inode.addrs i ≠ 0 ∧ img.size ≤ inode.addrs i) ∧
    (check_inode_direct_blocks img inode = none ↔
      ∀ i, i < NDIRECT → inode.addrs i ≠ 0 → inode.addrs i < img.size) ∧
    (inode.addrs NDIRECT = 0 → check_inode_indirect_blocks img inode = none) ∧
    (check_inode_indirect_blocks img inode = some Err.badIndirectAddr ↔
      inode.addrs NDIRECT ≠ 0 ∧
        (img.size ≤ inode.addrs NDIRECT ∨
          ∃ j, j < NINDIRECT ∧ img.blockWords (inode.addrs NDIRECT) j ≠ 0 ∧
            img.size ≤ img.blockWords (inode.addrs NDIRECT) j)) ∧
    (∀ k, k < img.ninodes → (img.inodeAt k).type ≠ 0 → inode_check img = none →
      check_inode_direct_blocks img (img.inodeAt k) = none ∧
      check_inode_indirect_blocks img (img.inodeAt k) = none) := by
  refine ⟨direct_check_eq_some_iff img inode, direct_check_eq_none_iff img inode,
    fun h0 => by simp [check_inode_indirect_blocks, h0],
    indirect_check_eq_some_iff img inode, fun k hk ht hchk => ?_⟩
  have hrules : inode_rules img k = none := by
    rw [inode_check, firstErr_map_range_eq_none_iff] at hchk
    exact hchk k hk
  rw [inode_rules, if_neg ht] at hrules
  constructor
  · exact eq_none_of_firstErr_eq_none hrules (by simp)
  · exact eq_none_of_firstErr_eq_none hrules (by simp)

/-! Behaviour of the "." / ".." scan of `check_dir` (C8, C5). -/

theorem check_dir_loop_both_found (inum : Nat) (es : List Dirent) :
    check_dir_loop inum es true true = none := by
  cases es <;> simp [check_dir_loop]

theorem check_dir_loop_dup_dot (inum : Nat) (de : Dirent) (es : List Dirent)
    (pf : Bool) (h : de.name = ".") :
    check_dir_loop inum (de :: es) true pf = check_dir_loop inum es true pf := by
  cases pf
  · simp [check_dir_loop, h]
  · simp [check_dir_loop, check_dir_loop_both_found]

theorem check_dir_loop_dup_dotdot (inum : Nat) (de : Dirent) (es : List Dirent)
    (cf : Bool) (h : de.name = "..") :
    check_dir_loop inum (de :: es) cf true = check_dir_loop inum es cf true := by
  cases cf
  · simp [check_dir_loop, h]
  · simp [check_dir_loop, check_dir_loop_both_found]

theorem check_dir_loop_no_dotdot (inum : Nat) :
    ∀ (es : List Dirent) (cf : Bool), (∀ de ∈ es, de.name ≠ "..") →
      check_dir_loop inum es cf false = some Err.dirFormat
  | [], cf, _ => by simp [check_dir_loop]
  | de :: es, cf, h => by
      have hde : de.name ≠ ".." := h de (List.mem_cons_self _ _)
      have hrest : ∀ d ∈ es, d.name ≠ ".." := fun d hd => h d (List.mem_cons_of_mem _ hd)
      by_cases hdot : de.name = "."
      · cases cf
        · by_cases hinum : de.inum = inum
          · simp [check_dir_loop, hdot, hinum, check_dir_loop_no_dotdot inum es true hrest]
          · simp [check_dir_loop, hdot, hinum]
        · simp [check_dir_loop, hdot, hde, check_dir_loop_no_dotdot inum es true hrest]
      · simp [check_dir_loop, hdot, hde, check_dir_loop_no_dotdot inum es cf hrest]

theorem check_dir_loop_no_dot (inum : Nat) :
    ∀ (es : List Dirent) (pf : Bool),
      (∀ de ∈ es, de.name ≠ ".") →
      (∀ de ∈ es, de.name = ".." →
        ¬((inum ≠ 1 ∧ de.inum = inum) ∨ (inum = 1 ∧ de.inum ≠ inum))) →
      check_dir_loop inum es false pf = some Err.dirFormat
  | [], pf, _, _ => by simp [check_dir_loop]
  | de :: es, pf, h1, h2 => by
      have hde : de.name ≠ "." := h1 de (List.mem_cons_self _ _)
      have h1r : ∀ d ∈ es, d.name ≠ "." := fun d hd => h1 d (List.mem_cons_of_mem _ hd)
      have h2r : ∀ d ∈ es, d.name = ".." →
          ¬((inum ≠ 1 ∧ d.inum = inum) ∨ (inum = 1 ∧ d.inum ≠ inum)) :=
        fun d hd => h2 d (List.mem_cons_of_mem _ hd)
      by_cases hdd : de.name = ".."
      · cases pf
        · have hgood := h2 de (List.mem_cons_self _ _) hdd
          simp [check_dir_loop, hde, hdd, hgood, check_dir_loop_no_dot inum es true h1r h2r]
        · simp [check_dir_loop, hde, hdd, check_dir_loop_no_dot inum es true h1r h2r]
      · simp [check_dir_loop, hde, hdd, check_dir_loop_no_dot inum es pf h1r h2r]

theorem check_dir_loop_first_dotdot_bad (inum : Nat) (p : Dirent) :
    ∀ (es : List Dirent) (cf : Bool),
      (∀ de ∈ es, de.name = "." → de.inum = inum) →
      es.find? (fun de => de.name == "..") = some p →
      ((inum ≠ 1 ∧ p.inum = inum) ∨ (inum = 1 ∧ p.inum ≠ inum)) →
      check_dir_loop inum es cf false = some Err.rootDir
  | [], cf, _, hfind, _ => by simp at hfind
  | de :: es, cf, h1, hfind, hbad => by
      have h1r : ∀ d ∈ es, d.name = "." → d.inum = inum :=
        fun d hd => h1 d (List.mem_cons_of_mem _ hd)
      by_cases hdd : de.name = ".."
      · rw [List.find?_cons_of_pos _ (by simp [hdd])] at hfind
        have hp : de = p := by injection hfind
        subst hp
        simp [check_dir_loop, hdd, hbad]
      · rw [List.find?_cons_of_neg _ (by simp [hdd])] at hfind
        by_cases hdot : de.name = "."
        · cases cf
          · have hinum := h1 de (List.mem_cons_self _ _) hdot
            simp [check_dir_loop, hdot, hinum,
              check_dir_loop_first_dotdot_bad inum p es true h1r hfind hbad]
          · simp [check_dir_loop, hdot, hdd,
              check_dir_loop_first_dotdot_bad inum p es true h1r hfind hbad]
        · simp [check_dir_loop, hdot, hdd,
            check_dir_loop_first_dotdot_bad inum p es cf h1r hfind hbad]

theorem check_dir_loop_good_firsts (inum : Nat) :
    ∀ (es : List Dirent) (cf pf : Bool),
      (cf = false → ∃ d, es.find? (fun de => de.name == ".") = some d ∧ d.inum = inum) →
      (pf = false → ∃ p, es.find? (fun de => de.name == "..") = some p ∧
        ¬((inum ≠ 1 ∧ p.inum = inum) ∨ (inum = 1 ∧ p.inum ≠ inum))) →
      check_dir_loop inum es cf pf = none
  | [], cf, pf, h1, h2 => by
      cases cf
      · obtain ⟨d, hd, -⟩ := h1 rfl
        simp at hd
      · cases pf
        · obtain ⟨p, hp, -⟩ := h2 rfl
          simp at hp
        · simp [check_dir_loop]
  | de :: es, cf, pf, h1, h2 => by
      by_cases hdot : de.name = "."
      · have hnd : de.name ≠ ".." := by simp [hdot]
        cases cf
        · obtain ⟨d, hd, hdinum⟩ := h1 rfl
          rw [List.find?_cons_of_pos _ (by simp [hdot])] at hd
          have hde : de = d := by injection hd
          subst hde
          cases pf
          · obtain ⟨p, hp, hgood⟩ := h2 rfl
            rw [List.find?_cons_of_neg _ (by simp [hdot])] at hp
            simp only [check_dir_loop, hdot, hdinum]
            simp [check_dir_loop_good_firsts inum es true false (by simp)
              (fun _ => ⟨p, hp, hgood⟩)]
          · simp only [check_dir_loop, hdot, hdinum]
            simp [check_dir_loop_good_firsts inum es true true (by simp) (by simp)]
        · cases pf
          · obtain ⟨p, hp, hgood⟩ := h2 rfl
            rw [List.find?_cons_of_neg _ (by simp [hdot])] at hp
            simp [check_dir_loop, hdot, hnd,
              check_dir_loop_good_firsts inum es true false (by simp)
                (fun _ => ⟨p, hp, hgood⟩)]
          · exact check_dir_loop_both_found inum _
      · by_cases hdd : de.name = ".."
        · cases pf
          · obtain ⟨p, hp, hgood⟩ := h2 rfl
            rw [List.find?_cons_of_pos _ (by simp [hdd])] at hp
            have hde : de = p := by injection hp
            subst hde
            cases cf
            · obtain ⟨d, hd, hdinum⟩ := h1 rfl
              rw [List.find?_cons_of_neg _ (by simp [hdd])] at hd
              simp only [check_dir_loop, hdd, hdot]
              simp [hgood, check_dir_loop_good_firsts inum es false true
                (fun _ => ⟨d, hd, hdinum⟩) (by simp)]
            · simp only [check_dir_loop, hdd, hdot]
              simp [hgood, check_dir_loop_good_firsts inum es true true (by simp) (by simp)]
          · cases cf
            · obtain ⟨d, hd, hdinum⟩ := h1 rfl
              rw [List.find?_cons_of_neg _ (by simp [hdd])] at hd
              simp [check_dir_loop, hdot, hdd,
                check_dir_loop_good_firsts inum es false true
                  (fun _ => ⟨d, hd, hdinum⟩) (by simp)]
            · exact check_dir_loop_both_found inum _
        · cases cf
          · cases pf
            · obtain ⟨d, hd, hdinum⟩ := h1 rfl
              obtain ⟨p, hp, hgood⟩ := h2 rfl
              rw [List.find?_cons_of_neg _ (by simp [hdot])] at hd
              rw [List.find?_cons_of_neg _ (by simp [hdd])] at hp
              simp [check_dir_loop, hdot, hdd,
                check_dir_loop_good_firsts inum es false false
                  (fun _ => ⟨d, hd, hdinum⟩) (fun _ => ⟨p, hp, hgood⟩)]
            · obtain ⟨d, hd, hdinum⟩ := h1 rfl
              rw [List.find?_cons_of_neg _ (by simp [hdot])] at hd
              simp [check_dir_loop, hdot, hdd,
                check_dir_loop_good_firsts inum es false true
                  (fun _ => ⟨d, hd, hdinum⟩) (by simp)]
          · cases pf
            · obtain ⟨p, hp, hgood⟩ := h2 rfl
              rw [List.find?_cons_of_neg _ (by simp [hdd])] at hp
              simp [check_dir_loop, hdot, hdd,
                check_dir_loop_good_firsts inum es true false (by simp)
                  (fun _ => ⟨p, hp, hgood⟩)]
            · exact check_dir_loop_both_found inum _

/-- C8 (amended): the dot-entry scan takes the first "." and the first ".."
entry over the direct data blocks' entries in order; once both are found the
scan's result is fixed and later duplicate "." or ".." entries are ignored;
if both first entries are well-formed the scan accepts; if ".." is absent
from all scanned entries the malformed-directory violation is reported, and
likewise if "." is absent - provided no ".." entry triggers the
root-directory violation first. -/
theorem c8_dot_scan (img : Image) (inode : Dinode) (inum : Nat) :
    (∀ es : List Dirent, check_dir_loop inum es true true = none) ∧
    (∀ (de : Dirent) (es : List Dirent) (pf : Bool), de.name = "." →
      check_dir_loop inum (de :: es) true pf = check_dir_loop inum es true pf) ∧
    (∀ (de : Dirent) (es : List Dirent) (cf : Bool), de.name = ".." →
      check_dir_loop inum (de :: es) cf true = check_dir_loop inum es cf true) ∧
    ((∀ de ∈ directDirents img inode, de.name ≠ "..") →
      check_dir img inode inum = some Err.dirFormat) ∧
    ((∀ de ∈ directDirents img inode, de.name ≠ ".") →
      (∀ de ∈ directDirents img inode, de.name = ".." →
        ¬((inum ≠ 1 ∧ de.inum = inum) ∨ (inum = 1 ∧ de.inum ≠ inum))) →
      check_dir img inode inum = some Err.dirFormat) ∧
    (∀ d p : Dirent,
      (directDirents img inode).find? (fun de => de.name == ".") = some d →
      d.inum = inum →
      (directDirents img inode).find? (fun de => de.name == "..") = some p →
      ¬((inum ≠ 1 ∧ p.inum = inum) ∨ (inum = 1 ∧ p.inum ≠ inum)) →
      check_dir img inode inum = none) := by
  refine ⟨check_dir_loop_both_found inum, check_dir_loop_dup_dot inum,
    check_dir_loop_dup_dotdot inum,
    fun h => check_dir_loop_no_dotdot inum _ false h,
    fun h1 h2 => check_dir_loop_no_dot inum _ false h1 h2,
    fun d p hd hdinum hp hgood => ?_⟩
  exact check_dir_loop_good_firsts inum _ false false
    (fun _ => ⟨d, hd, hdinum⟩) (fun _ => ⟨p, hp, hgood⟩)

/-- C5 (amended): for inode 1 in use but not a directory (once the type and
address checks pass), the root-directory violation is reported; for inode 1 a
directory whose first ".." entry does not reference inode 1 (its "." entries
well-formed), the root-directory violation is reported; and for any other
in-use directory inode whose first ".." entry references the inode itself,
the same root-directory violation is reported. -/
theorem c5_root_directory_checks (img : Image) :
    ((img.inodeAt 1).type ≠ 0 → (img.inodeAt 1).type ≠ T_DIR →
      check_inode_type (img.inodeAt 1) = none →
      check_inode_direct_blocks img (img.inodeAt 1) = none →
      check_inode_indirect_blocks img (img.inodeAt 1) = none →
      inode_rules img 1 = some Err.rootDir) ∧
    (∀ p : Dirent, (img.inodeAt 1).type = T_DIR →
      check_inode_direct_blocks img (img.inodeAt 1) = none →
      check_inode_indirect_blocks img (img.inodeAt 1) = none →
      (∀ de ∈ directDirents img (img.inodeAt 1), de.name = "." → de.inum = 1) →
      (directDirents img (img.inodeAt 1)).find? (fun de => de.name == "..") = some p →
      p.inum ≠ 1 →
      inode_rules img 1 = some Err.rootDir) ∧
    (∀ (i : Nat) (p : Dirent), i ≠ 1 → (img.inodeAt i).type = T_DIR →
      check_inode_direct_blocks img (img.inodeAt i) = none →
      check_inode_indirect_blocks img (img.inodeAt i) = none →
      (∀ de ∈ directDirents img (img.inodeAt i), de.name = "." → de.inum = i) →
      (directDirents img (img.inodeAt i)).find? (fun de => de.name == "..") = some p →
      p.inum = i →
      inode_rules img i = some Err.rootDir) := by
  refine ⟨fun ht hnd htype hdir hind => ?_, fun p hdirT hdir hind hdots hfind hp => ?_,
    fun i p hi hdirT hdir hind hdots hfind hp => ?_⟩
  · rw [inode_rules, if_neg ht]
    simp [htype, hdir, hind, hnd, firstErr]
  · have ht : (img.inodeAt 1).type ≠ 0 := by rw [hdirT]; decide
    have htype : check_inode_type (img.inodeAt 1) = none := by
      simp [check_inode_type, hdirT, T_DIR, T_FILE, T_DEV]
    have hcd : check_dir img (img.inodeAt 1) 1 = some Err.rootDir :=
      check_dir_loop_first_dotdot_bad 1 p _ false hdots hfind (Or.inr ⟨rfl, hp⟩)
    rw [inode_rules, if_neg ht]
    simp [htype, hdir, hind, hdirT, hcd, firstErr]
  · have ht : (img.inodeAt i).type ≠ 0 := by rw [hdirT]; decide
    have htype : check_inode_type (img.inodeAt i) = none := by
      simp [check_inode_type, hdirT, T_DIR, T_FILE, T_DEV]
    have hcd : check_dir img (img.inodeAt i) i = some Err.rootDir :=
      check_dir_loop_first_dotdot_bad i p _ false hdots hfind (Or.inl ⟨hi, hp⟩)
    rw [inode_rules, if_neg ht]
    simp [htype, hdir, hind, hdirT, hcd, hi, firstErr]

/-! Termination of the directory walk (C9). -/

theorem foldlM_option_isSome {α β : Type} (f : β → α → Option β) :
    ∀ (l : List α), (∀ (b : β) (a : α), a ∈ l → (f b a).isSome) →
      ∀ b : β, (l.foldlM f b).isSome
  | [], _, b => by simp
  | a :: l, h, b => by
      obtain ⟨b', hb⟩ := Option.isSome_iff_exists.mp (h b a (List.mem_cons_self _ _))
      rw [List.foldlM_cons, hb]
      exact foldlM_option_isSome f l (fun c x hx => h c x (List.mem_cons_of_mem _ hx)) b'

theorem traverse_dirs_isSome_of_rank (img : Image) (r : Nat → Nat)
    (hr : ∀ a b, dirEdge img a b → r b < r a) :
    ∀ (fuel : Nat) (k : Nat) (m : Nat → Nat), r k < fuel →
      (traverse_dirs img fuel (img.inodeAt k) m).isSome := by
  intro fuel
  induction fuel with
  | zero => intro k m h; omega
  | succ n ih =>
    intro k m _h
    by_cases ht : (img.inodeAt k).type = T_DIR
    · simp only [traverse_dirs, if_pos ht]
      apply foldlM_option_isSome
      intro m' de hde
      by_cases hc : de.inum ≠ 0 ∧ de.name ≠ "." ∧ de.name ≠ ".."
      · rw [if_pos hc]
        have hedge : dirEdge img k de.inum :=
          ⟨ht, List.mem_filterMap.mpr ⟨de, hde, by rw [if_pos hc]⟩⟩
        have := hr k de.inum hedge
        exact ih de.inum (bump m' de.inum) (by omega)
      · rw [if_neg hc]
        simp
    · simp [traverse_dirs, if_neg ht]

/-- C9: if the directory reference graph walked by `traverse_dirs` (entries
named "." and ".." excluded) is acyclic - witnessed by a rank function that
strictly decreases along every edge - then the recursive walk from the root
inode terminates: some finite recursion depth completes it. -/
theorem c9_traversal_terminates (img : Image) (r : Nat → Nat)
    (hr : ∀ a b, dirEdge img a b → r b < r a) (m : Nat → Nat) :
    ∃ fuel : Nat, (traverse_dirs img fuel (img.inodeAt 1) m).isSome :=
  ⟨r 1 + 1, traverse_dirs_isSome_of_rank img r hr (r 1 + 1) 1 m (by omega)⟩

/-- Witness for C9 at the concrete image `imgZ`, whose directory graph has no
edge at all (rank function constantly 0): the walk completes. -/
theorem c9_witness :
    ∃ fuel : Nat, (traverse_dirs imgZ fuel (imgZ.inodeAt 1) seedMap).isSome :=
  c9_traversal_terminates imgZ (fun _ => 0)
    (fun a b h => absurd h.1 (by simp [imgZ, freeInode, T_DIR])) seedMap

/-! The bitmap scan's used-block set versus the spec's reachable blocks (C3). -/

theorem wordUidxs_eq_map (img : Image) (blockaddr : Nat) :
    ((List.range NINDIRECT).filterMap fun j =>
      if img.blockWords blockaddr j = 0 then none
      else some (uidx img (img.blockWords blockaddr j)))
    = (((List.range NINDIRECT).filterMap fun j =>
        if img.blockWords blockaddr j = 0 then none
        else some (img.blockWords blockaddr j)).map (uidx img)) := by
  rw [List.map_filterMap]
  congr 1
  funext j
  by_cases h : img.blockWords blockaddr j = 0 <;> simp [h]

theorem slots_flatMap_eq (img : Image) (inode : Dinode) :
    ∀ (l : List Nat), (∀ i ∈ l, i ≠ NDIRECT) →
      (l.flatMap fun i =>
        if inode.addrs i = 0 then []
        else
          uidx img (inode.addrs i) ::
            (if i = NDIRECT then
              (List.range NINDIRECT).filterMap fun j =>
                if img.blockWords (inode.addrs i) j = 0 then none
                else some (uidx img (img.blockWords (inode.addrs i) j))
            else []))
      = ((l.filterMap fun s =>
          if inode.addrs s = 0 then none else some (inode.addrs s)).map (uidx img))
  | [], _ => by simp
  | i :: l, h => by
      have hi : i ≠ NDIRECT := h i (List.mem_cons_self _ _)
      have hrest := slots_flatMap_eq img inode l (fun j hj => h j (List.mem_cons_of_mem _ hj))
      by_cases h0 : inode.addrs i = 0
      · simp [h0, hrest]
      · simp [h0, hi, hrest]

theorem get_used_idxs_eq_map (img : Image) (inode : Dinode) :
    get_used_idxs img inode = (inodeAddrs img inode).map (uidx img) := by
  unfold get_used_idxs inodeAddrs indirectAddrsOf
  rw [List.range_succ, List.flatMap_append, List.filterMap_append, List.map_append,
    slots_flatMap_eq img inode (List.range NDIRECT)
      (fun i hi => Nat.ne_of_lt (List.mem_range.mp hi)),
    List.map_append]
  rw [List.append_assoc]
  congr 1
  by_cases h0 : inode.addrs NDIRECT = 0
  · simp [h0]
  · simp only [List.flatMap_cons, List.flatMap_nil, List.filterMap_cons, h0, if_neg h0,
      List.append_nil]
    simp [h0, wordUidxs_eq_map img (inode.addrs NDIRECT)]

theorem mem_used_idxs_iff (img : Image) (x : Int) :
    x ∈ used_idxs img ↔
      ∃ k, k < img.ninodes ∧ (img.inodeAt k).type ≠ 0 ∧
        ∃ a ∈ inodeAddrs img (img.inodeAt k), uidx img a = x := by
  unfold used_idxs
  simp only [List.mem_flatMap, List.mem_range]
  constructor
  · rintro ⟨k, hk, hmem⟩
    by_cases ht : (img.inodeAt k).type = 0
    · simp [ht] at hmem
    · rw [if_neg ht, get_used_idxs_eq_map] at hmem
      obtain ⟨a, ha, hax⟩ := List.mem_map.mp hmem
      exact ⟨k, hk, ht, a, ha, hax⟩
  · rintro ⟨k, hk, ht, a, ha, hax⟩
    refine ⟨k, hk, ?_⟩
    rw [if_neg ht, get_used_idxs_eq_map]
    exact List.mem_map.mpr ⟨a, ha, hax⟩

theorem refdBlock_eq_true_iff (img : Image) (b : Nat) :
    refdBlock img b = true ↔
      ∃ k, k < img.ninodes ∧ (img.inodeAt k).type ≠ 0 ∧
        b ∈ inodeAddrs img (img.inodeAt k) := by
  unfold refdBlock
  simp [List.any_eq_true, List.contains]

theorem used_idxs_mem_iff_refdBlock (img : Image) (i : Nat) :
    ((i : Int) ∈ used_idxs img) ↔ refdBlock img (i + firstdatablock img) = true := by
  rw [mem_used_idxs_iff, refdBlock_eq_true_iff]
  constructor
  · rintro ⟨k, hk, ht, a, ha, hux⟩
    have haeq : a = i + firstdatablock img := by
      unfold uidx at hux
      omega
    exact ⟨k, hk, ht, haeq ▸ ha⟩
  · rintro ⟨k, hk, ht, ha⟩
    refine ⟨k, hk, ht, i + firstdatablock img, ha, ?_⟩
    unfold uidx
    push_cast
    ring

/-- C3 (amended): `bitmap_check` reports the bitmap-overstates-usage
violation exactly when some block with number in
`[firstdatablock, firstdatablock + nblocks)` is marked allocated in the
bitmap yet reachable from no in-use inode's direct or indirect addresses;
block numbers below `firstdatablock` are never examined, and no other
diagnostic can come from this scan. -/
theorem c3_bitmap_check_characterization (img : Image) :
    (bitmap_check img = some Err.bitmapUnused ↔
      ∃ b, firstdatablock img ≤ b ∧ b < firstdatablock img + img.nblocks ∧
        BITSET img b = true ∧ refdBlock img b = false) ∧
    (bitmap_check img = none ↔
      ∀ b, firstdatablock img ≤ b → b < firstdatablock img + img.nblocks →
        BITSET img b = true → refdBlock img b = true) := by
  have hbody : ∀ i : Nat,
      ((if ¬((i : Int) ∈ used_idxs img) ∧ BITSET img (i + firstdatablock img) then
          some Err.bitmapUnused else none) = some Err.bitmapUnused ↔
        BITSET img (i + firstdatablock img) = true ∧
          refdBlock img (i + firstdatablock img) = false) := by
    intro i
    split_ifs with hc
    · simp only [true_iff]
      refine ⟨hc.2, ?_⟩
      have h1 := hc.1
      rw [used_idxs_mem_iff_refdBlock] at h1
      simpa using h1
    · simp only [false_iff, not_and]
      intro hbit href
      apply hc
      refine ⟨?_, hbit⟩
      intro hmem
      rw [used_idxs_mem_iff_refdBlock] at hmem
      rw [hmem] at href
      simp at href
  constructor
  · rw [bitmap_check, firstErr_map_range_eq_some_iff]
    · constructor
      · rintro ⟨i, hi, hf⟩
        have hf' : (if ¬((i : Int) ∈ used_idxs img) ∧
            BITSET img (i + firstdatablock img) then
              some Err.bitmapUnused else none) = some Err.bitmapUnused := hf
        have hbi := (hbody i).mp hf'
        exact ⟨i + firstdatablock img, by omega, by omega, hbi.1, hbi.2⟩
      · rintro ⟨b, hb1, hb2, hbit, href⟩
        refine ⟨b - firstdatablock img, by omega, ?_⟩
        show (if ¬(((b - firstdatablock img : Nat) : Int) ∈ used_idxs img) ∧
            BITSET img (b - firstdatablock img + firstdatablock img) then
              some Err.bitmapUnused else none) = some Err.bitmapUnused
        rw [hbody (b - firstdatablock img)]
        have heq : b - firstdatablock img + firstdatablock img = b := by omega
        rw [heq]
        exact ⟨hbit, href⟩
    · intro i hi
      show (if ¬((i : Int) ∈ used_idxs img) ∧
          BITSET img (i + firstdatablock img) then
            some Err.bitmapUnused else none) = none ∨
        (if ¬((i : Int) ∈ used_idxs img) ∧
          BITSET img (i + firstdatablock img) then
            some Err.bitmapUnused else none) = some Err.bitmapUnused
      split_ifs <;> simp
  · rw [bitmap_check, firstErr_map_range_eq_none_iff]
    constructor
    · intro h b hb1 hb2 hbit
      by_contra href
      have hf := h (b - firstdatablock img) (by omega)
      have heq : b - firstdatablock img + firstdatablock img = b := by omega
      have hf' : (if ¬(((b - firstdatablock img : Nat) : Int) ∈ used_idxs img) ∧
          BITSET img (b - firstdatablock img + firstdatablock img) then
            some Err.bitmapUnused else none) = none := hf
      rw [if_pos ?hcond] at hf'
      case hcond =>
        refine ⟨?_, by rw [heq]; exact hbit⟩
        intro hmem
        rw [used_idxs_mem_iff_refdBlock, heq] at hmem
        exact href hmem
      simp at hf'
    · intro h i hi
      show (if ¬((i : Int) ∈ used_idxs img) ∧
          BITSET img (i + firstdatablock img) then
            some Err.bitmapUnused else none) = none
      by_cases hmem : (i : Int) ∈ used_idxs img
      · exact if_neg fun hcond => hcond.1 hmem
      · rw [used_idxs_mem_iff_refdBlock] at hmem
        refine if_neg ?_
        rintro ⟨-, hbit⟩
        exact hmem (h (i + firstdatablock img) (by omega) (by omega) hbit)

/-! Duplicate-direct-address counting (C6). -/

theorem count_flatMap_eq_sum {α β : Type} [BEq β] (g : α → List β) (x : β) :
    ∀ l : List α, ((l.flatMap g).count x) = (l.map fun a => (g a).count x).sum
  | [] => by simp
  | a :: l => by
      simp [List.flatMap_cons, List.count_append, count_flatMap_eq_sum g x l]

theorem uidx_injective (img : Image) : Function.Injective (uidx img) := by
  intro a b h
  unfold uidx at h
  omega

theorem duaddr_idxs_eq_map (img : Image) (inode : Dinode) :
    duaddr_idxs img inode = (directAddrsOf inode).map (uidx img) := by
  unfold duaddr_idxs directAddrsOf
  rw [List.map_filterMap]
  congr 1
  funext s
  by_cases h0 : inode.addrs s = 0 <;> simp [h0]

theorem duaddrs_all_count (img : Image) (b : Nat) :
    (duaddrs_all img).count (uidx img b) = directClaimCount img b := by
  unfold duaddrs_all directClaimCount
  rw [count_flatMap_eq_sum]
  congr 1
  apply List.map_congr_left
  intro i _
  by_cases ht : (img.inodeAt i).type = 0
  · simp [ht]
  · rw [if_neg ht, if_neg ht, duaddr_idxs_eq_map,
      List.count_map_of_injective _ _ (uidx_injective img)]

/-- C6 (amended): `blockaddrs_check` reports the duplicate-direct-address
violation only when some data block in the counter range is claimed by two or
more direct address slots over the in-use inodes - two slots of a single
inode included - and conversely any such block forces that report whenever no
indirect-use counter exceeds one. -/
theorem c6_duplicate_direct_detection (img : Image) :
    (blockaddrs_check img = some Err.directDup →
      ∃ b, firstdatablock img ≤ b ∧ b < firstdatablock img + img.nblocks ∧
        2 ≤ directClaimCount img b) ∧
    (∀ b, firstdatablock img ≤ b → b < firstdatablock img + img.nblocks →
      2 ≤ directClaimCount img b →
      (∀ i, i < img.nblocks → (iuaddrs_all img).count (i : Int) ≤ 1) →
      blockaddrs_check img = some Err.directDup) := by
  constructor
  · intro h
    obtain ⟨i, hirange, hf⟩ := List.mem_map.mp (firstErr_eq_some_mem h)
    have hi := List.mem_range.mp hirange
    have hf' : firstErr
        [ if (duaddrs_all img).count (i : Int) > 1 then some Err.directDup else none,
          if (iuaddrs_all img).count (i : Int) > 1 then some Err.indirectDup
          else none ] = some Err.directDup := hf
    have hdu : (duaddrs_all img).count (i : Int) > 1 := by
      by_contra hdu
      rw [if_neg hdu] at hf'
      by_cases hiu : (iuaddrs_all img).count (i : Int) > 1
      · rw [if_pos hiu] at hf'
        simp [firstErr] at hf'
      · rw [if_neg hiu] at hf'
        simp [firstErr] at hf'
    refine ⟨i + firstdatablock img, by omega, by omega, ?_⟩
    have huidx : uidx img (i + firstdatablock img) = (i : Int) := by
      unfold uidx
      push_cast
      ring
    rw [← duaddrs_all_count, huidx]
    omega
  · intro b hb1 hb2 hcount hiu
    have huidx : uidx img b = ((b - firstdatablock img : Nat) : Int) := by
      unfold uidx
      omega
    have hdu : (duaddrs_all img).count ((b - firstdatablock img : Nat) : Int) > 1 := by
      have h2 := duaddrs_all_count img b
      rw [huidx] at h2
      omega
    rw [blockaddrs_check]
    apply firstErr_eq_some_of_mem
    · intro x hx
      obtain ⟨j, hjrange, hx⟩ := List.mem_map.mp hx
      have hj := List.mem_range.mp hjrange
      have hx' : firstErr
          [ if (duaddrs_all img).count (j : Int) > 1 then some Err.directDup else none,
            if (iuaddrs_all img).count (j : Int) > 1 then some Err.indirectDup
            else none ] = x := hx
      have hiuj : ¬((iuaddrs_all img).count (j : Int) > 1) := by simpa using hiu j hj
      by_cases hduj : (duaddrs_all img).count (j : Int) > 1
      · rw [if_pos hduj, if_neg hiuj] at hx'
        right
        rw [← hx']
        simp [firstErr]
      · rw [if_neg hduj, if_neg hiuj] at hx'
        left
        rw [← hx']
        simp [firstErr]
    · refine List.mem_map.mpr ⟨b - firstdatablock img,
        List.mem_range.mpr (by omega), ?_⟩
      show firstErr
          [ if (duaddrs_all img).count ((b - firstdatablock img : Nat) : Int) > 1 then
              some Err.directDup else none,
            if (iuaddrs_all img).count ((b - firstdatablock img : Nat) : Int) > 1 then
              some Err.indirectDup else none ] = some Err.directDup
      rw [if_pos hdu]
      simp [firstErr]

end FCheck
